import Mathlib

/-!
Verification of the temporal scheduling engine of the dispatch client.

Timestamps and durations are modelled as `Int` microseconds (the resolution
of Python's `datetime` / `timedelta`).  Fallible operations (Python functions
that may raise) are modelled with `Except String`.  The functions `running`,
`until` and `next_run` of the source read the ambient wall clock via
`datetime.now()` inside their bodies; in this embedding that clock reading is
made explicit as a final parameter named `now` (respectively `clockNow`),
representing the instant the ambient clock returned during the call.

The module `recurrence.py` (enums `Frequency` and `Weekday`, the classes
`EndCriteria` and `RecurrenceRule`, and the occurrence enumeration backed by
the external `dateutil.rrule` library) is not part of the sources available
here; those definitions are modelled from the specification, as marked in
their doc comments.
-/

/-- Modelled from the spec: the `Frequency` enumeration of `recurrence.py`
(section 3): UNSPECIFIED, HOURLY, DAILY, WEEKLY, MONTHLY, where UNSPECIFIED
means "no recurrence". -/
inductive Frequency where
  | UNSPECIFIED
  | HOURLY
  | DAILY
  | WEEKLY
  | MONTHLY
deriving DecidableEq

/-- Modelled from the spec: the `Weekday` enumeration of `recurrence.py`
(section 3): UNSPECIFIED plus the seven weekdays. -/
inductive Weekday where
  | UNSPECIFIED
  | MONDAY
  | TUESDAY
  | WEDNESDAY
  | THURSDAY
  | FRIDAY
  | SATURDAY
  | SUNDAY
deriving DecidableEq

/-- Modelled from the spec: `EndCriteria` of `recurrence.py` (section 3) is
exactly one of a positive occurrence count or an until-instant; the two are
mutually exclusive, which the inductive representation enforces by
construction. -/
inductive EndCriteria where
  | count (n : Nat)
  | until (t : Int)
deriving DecidableEq

/-- Modelled from the spec: the immutable `RecurrenceRule` of `recurrence.py`
(section 3), with the field names used by the callers in `types.py` and the
tests (`frequency`, `interval`, `end_criteria`, `byminutes`, `byhours`,
`byweekdays`, `bymonthdays`, `bymonths`).  The by-star collections are
order-insignificant restriction filters. -/
structure RecurrenceRule where
  frequency : Frequency := .UNSPECIFIED
  interval : Nat := 0
  end_criteria : Option EndCriteria := none
  byminutes : List Nat := []
  byhours : List Nat := []
  byweekdays : List Weekday := []
  bymonthdays : List Int := []
  bymonths : List Nat := []
deriving DecidableEq

/-- Microseconds per second, the resolution of Python timedeltas. -/
def microPerSecond : Int := 1000000

/-- Whole seconds (floor) of a microsecond timestamp. -/
def secondsOf (t : Int) : Int := t / microPerSecond

/-- Minute-of-hour of a microsecond timestamp. -/
def minuteOf (t : Int) : Nat := ((secondsOf t / 60) % 60).toNat

/-- Hour-of-day of a microsecond timestamp. -/
def hourOf (t : Int) : Nat := ((secondsOf t / 3600) % 24).toNat

/-- Day index (Monday = 0) of a microsecond timestamp; the Unix epoch day was
a Thursday, hence the offset 3. -/
def weekdayIdx (t : Int) : Nat := ((secondsOf t / 86400 + 3) % 7).toNat

/-- The weekday of a microsecond timestamp. -/
def weekdayOf (t : Int) : Weekday :=
  match weekdayIdx t with
  | 0 => .MONDAY
  | 1 => .TUESDAY
  | 2 => .WEDNESDAY
  | 3 => .THURSDAY
  | 4 => .FRIDAY
  | 5 => .SATURDAY
  | _ => .SUNDAY

/-- Civil (year, month, day) from a count of days since the Unix epoch,
following the standard era-based conversion algorithm. -/
def civilFromDays (z0 : Int) : Int × Nat × Nat :=
  let z := z0 + 719468
  let era := (if 0 ≤ z then z else z - 146096) / 146097
  let doe := (z - era * 146097).toNat
  let yoe := (doe - doe / 1460 + doe / 36524 - doe / 146096) / 365
  let doy := doe - (365 * yoe + yoe / 4 - yoe / 100)
  let mp := (5 * doy + 2) / 153
  let d := doy - (153 * mp + 2) / 5 + 1
  let m := if mp < 10 then mp + 3 else mp - 9
  ((yoe : Int) + era * 400 + (if m ≤ 2 then 1 else 0), m, d)

/-- Month-of-year (1-12) of a microsecond timestamp. -/
def monthOf (t : Int) : Nat := (civilFromDays (secondsOf t / 86400)).2.1

/-- Day-of-month (1-31) of a microsecond timestamp. -/
def monthdayOf (t : Int) : Nat := (civilFromDays (secondsOf t / 86400)).2.2

/-- Modelled from the spec: the length in microseconds of one stepping unit of
a frequency (section 4.1).  Months are approximated as 30 days; no claim
settled here depends on month-length specifics.  UNSPECIFIED has no stepping
unit (callers never enumerate it). -/
def Frequency.unitMicro : Frequency → Int
  | .UNSPECIFIED => 0
  | .HOURLY => 3600 * microPerSecond
  | .DAILY => 86400 * microPerSecond
  | .WEEKLY => 604800 * microPerSecond
  | .MONTHLY => 2592000 * microPerSecond

/-- Modelled from the spec: one candidate-generation step, "one `frequency`
unit multiplied by `interval` (minimum effective interval is 1)"
(section 4.1). -/
def RecurrenceRule.stepMicro (r : RecurrenceRule) : Int :=
  r.frequency.unitMicro * (max 1 r.interval : Nat)

/-- Modelled from the spec: the k-th candidate instant, walking forward from
the anchor `start` in steps of `stepMicro` (sections 3 and 4.1). -/
def RecurrenceRule.occCandidate (r : RecurrenceRule) (start : Int) (k : Nat) : Int :=
  start + k * r.stepMicro

/-- Modelled from the spec: the conjunction of all non-empty by-star
restriction filters applied to a candidate instant (sections 3 and 4.1); an
empty collection leaves its field unconstrained. -/
def RecurrenceRule.matchesFilters (r : RecurrenceRule) (t : Int) : Bool :=
  (r.byminutes.isEmpty || r.byminutes.contains (minuteOf t)) &&
  (r.byhours.isEmpty || r.byhours.contains (hourOf t)) &&
  (r.byweekdays.isEmpty || r.byweekdays.contains (weekdayOf t)) &&
  (r.bymonthdays.isEmpty || r.bymonthdays.contains (monthdayOf t)) &&
  (r.bymonths.isEmpty || r.bymonths.contains (monthOf t))

/-- Modelled from the spec: the until-criterion admits exactly the instants
strictly before its bound, "truncated to exclude any instant at or after
`until`" (section 4.1). -/
def RecurrenceRule.untilOk (r : RecurrenceRule) (t : Int) : Bool :=
  match r.end_criteria with
  | some (.until u) => t < u
  | _ => true

/-- The occurrence-count bound of the rule, when a count criterion is set. -/
def RecurrenceRule.countBound (r : RecurrenceRule) : Option Nat :=
  match r.end_criteria with
  | some (.count n) => some n
  | _ => none

/-- Number of valid (filter-passing, until-admitted) candidates with index
strictly below `k`; used to apply the count criterion, which counts only
valid occurrences (section 4.1). -/
def RecurrenceRule.passesBelow (r : RecurrenceRule) (start : Int) (k : Nat) : Nat :=
  ((List.range k).filter
    (fun j => r.matchesFilters (r.occCandidate start j) && r.untilOk (r.occCandidate start j))).length

/-- Modelled from the spec: candidate index `k` denotes a real occurrence when
it passes every filter, is admitted by the until-criterion, and lies within
the count bound (sections 3 and 4.1). -/
def RecurrenceRule.occValidIdx (r : RecurrenceRule) (start : Int) (k : Nat) : Bool :=
  r.matchesFilters (r.occCandidate start k) &&
  r.untilOk (r.occCandidate start k) &&
  (match r.countBound with
   | some n => r.passesBelow start k < n
   | none => true)

/-- An instant is an occurrence of the rule anchored at `start` when it is a
valid candidate at some index. -/
def RecurrenceRule.IsOccurrence (r : RecurrenceRule) (start t : Int) : Prop :=
  ∃ k : Nat, t = r.occCandidate start k ∧ r.occValidIdx start k = true

/-- Modelled from the spec: `last_at_or_before(start_time, reference)` of
section 4.1, the latest occurrence at or before the reference (the behavior
of `rrule(...).before(reference, inc=True)` used by `Dispatch._until`).
Because candidates grow by at least one step, every occurrence at or before
`ref` has index at most `(ref - start) / step`, so the scan below is
complete. -/
def RecurrenceRule.last_at_or_before (r : RecurrenceRule) (start ref : Int) : Option Int :=
  (((List.range (((ref - start) / r.stepMicro).toNat + 1)).filter
      (fun k => r.occValidIdx start k && decide (r.occCandidate start k ≤ ref))).max?).map
    (r.occCandidate start)

/-- Bound on the forward search for the first occurrence at or after an
instant: models the bounded enumeration of the external recurrence library,
which abandons the search at its calendar horizon instead of looping
forever on unsatisfiable filter combinations. -/
def searchHorizon : Nat := 100000

/-- Fuel-bounded forward search for the first valid occurrence at or after
`after`, starting at candidate index `k` with `passes` valid occurrences
already seen; stops when the count bound is exhausted, when the
until-criterion cuts the sequence, or when the fuel runs out. -/
def firstSearch (r : RecurrenceRule) (start after : Int) :
    Nat → Nat → Nat → Option Int
  | _, 0, _ => none
  | k, fuel + 1, passes =>
    if (match r.countBound with | some n => decide (n ≤ passes) | none => false) then none
    else if r.untilOk (r.occCandidate start k) = false then none
    else if r.matchesFilters (r.occCandidate start k) then
      if after ≤ r.occCandidate start k then some (r.occCandidate start k)
      else firstSearch r start after (k + 1) fuel (passes + 1)
    else firstSearch r start after (k + 1) fuel passes

/-- Modelled from the spec: `first_at_or_after(start_time, reference)` of
section 4.1, the earliest occurrence at or after the reference (the behavior
of `rrule(...).after(after, inc=True)` used by `Dispatch.next_run_after`). -/
def RecurrenceRule.first_at_or_after (r : RecurrenceRule) (start after : Int) : Option Int :=
  firstSearch r start after 0 searchHorizon 0

/-- The running state of a dispatch (`types.py`). -/
inductive RunningState where
  | RUNNING
  | STOPPED
  | DIFFERENT_TYPE
deriving DecidableEq

/-- The `Dispatch` record of `types.py`.  The component selector is modelled
in its component-id form and the payload as an opaque key-value list; neither
takes part in the scheduling logic.  Timestamps are microseconds. -/
structure Dispatch where
  id : Nat
  type : String
  start_time : Int
  duration : Option Int
  selector : List Int
  active : Bool
  dry_run : Bool
  payload : List (String × String)
  recurrence : RecurrenceRule
  create_time : Int
  update_time : Int
deriving DecidableEq

/-- `Dispatch._until` of `types.py`: raises when the dispatch has no
duration; returns `start_time + duration` when there is no real recurrence;
otherwise adds the duration to the latest recurrence occurrence at or before
`now`, or returns none when no occurrence has started yet. -/
def Dispatch.untilAt (d : Dispatch) (now : Int) : Except String (Option Int) :=
  match d.duration with
  | none => .error "_until: Dispatch has no duration"
  | some dur =>
    if d.recurrence.frequency = Frequency.UNSPECIFIED then
      .ok (some (d.start_time + dur))
    else
      match d.recurrence.last_at_or_before d.start_time now with
      | none => .ok none
      | some latest_past_start => .ok (some (latest_past_start + dur))

/-- `Dispatch.until` of `types.py`: returns none for an inactive dispatch,
otherwise delegates to `_until` (here `untilAt`) at the instant `now` read
from the ambient wall clock inside the property. -/
def Dispatch.until (d : Dispatch) (now : Int) : Except String (Option Int) :=
  if d.active = false then .ok none
  else d.untilAt now

/-- `Dispatch.running` of `types.py`, with `now` the instant read from the
ambient wall clock inside the method: DIFFERENT_TYPE on a type mismatch,
STOPPED when inactive or not yet started, RUNNING for a started dispatch
without duration, and otherwise RUNNING exactly while `now` is before the
end computed by `_until` (here `untilAt`). -/
def Dispatch.running (d : Dispatch) (type_ : String) (now : Int) :
    Except String RunningState :=
  if d.type ≠ type_ then .ok .DIFFERENT_TYPE
  else if d.active = false then .ok .STOPPED
  else if now < d.start_time then .ok .STOPPED
  else
    match d.duration with
    | none => .ok .RUNNING
    | some _ =>
      match d.untilAt now with
      | .error e => .error e
      | .ok (some u) => .ok (if now < u then .RUNNING else .STOPPED)
      | .ok none => .ok .STOPPED

/-- `Dispatch.next_run_after` of `types.py`: with no real recurrence
frequency or no duration the schedule is a single occurrence at
`start_time`; an UNSPECIFIED weekday in the by-weekday filter yields none;
otherwise the first recurrence occurrence at or after `after`. -/
def Dispatch.next_run_after (d : Dispatch) (after : Int) : Option Int :=
  if d.recurrence.frequency = Frequency.UNSPECIFIED ∨ d.duration = none then
    if d.start_time < after then none
    else some d.start_time
  else if Weekday.UNSPECIFIED ∈ d.recurrence.byweekdays then none
  else d.recurrence.first_at_or_after d.start_time after

/-- `Dispatch.next_run` of `types.py`: `next_run_after` evaluated at the
instant `clockNow` read from the ambient wall clock inside the property. -/
def Dispatch.next_run (d : Dispatch) (clockNow : Int) : Option Int :=
  d.next_run_after clockNow

example :
    (RecurrenceRule.last_at_or_before
      { frequency := .DAILY, interval := 1 } 0 100000000000) =
      some 86400000000 := by decide

example :
    (RecurrenceRule.first_at_or_after
      { frequency := .DAILY, interval := 1 } 0 600000000) =
      some 86400000000 := by decide

/-- The `DispatchMetadata` protobuf message for the fields used by the
conversions in `types.py`.  The external timestamp conversions `to_datetime`
and `to_timestamp` are modelled as the identity on microsecond instants. -/
structure DispatchMetadata where
  dispatch_id : Nat
  create_time : Int
  modification_time : Int
deriving DecidableEq

/-- The `DispatchData` protobuf message for the fields used by the
conversions in `types.py`.  The wire duration is a whole-second scalar whose
zero value also denotes an unset field, matching the truthiness test
`if pb_object.data.duration` used when reading it; the recurrence message is
carried through unchanged (its own conversion lives in the absent
`recurrence.py`). -/
structure DispatchData where
  type : String
  start_time : Int
  duration : Int
  selector : List Int
  is_active : Bool
  is_dry_run : Bool
  payload : List (String × String)
  recurrence : RecurrenceRule
deriving DecidableEq

/-- The protobuf `Dispatch` message. -/
structure PBDispatch where
  metadata : DispatchMetadata
  data : DispatchData
deriving DecidableEq

/-- Python's `round` applied to `total_seconds()` of a microsecond duration:
round half to even on the exact rational value.  With `0 ≤ r < 10^6` the
fraction is `r / 10^6`; the tie at one half goes to whichever of `q` and
`q + 1` is even, which is `q` exactly when `q` is even. -/
def pyRoundSeconds (micro : Int) : Int :=
  if micro % microPerSecond < 500000 then micro / microPerSecond
  else if 500000 < micro % microPerSecond then micro / microPerSecond + 1
  else if (micro / microPerSecond) % 2 = 0 then micro / microPerSecond
  else micro / microPerSecond + 1

/-- `Dispatch.to_protobuf` of `types.py`: the duration field is
`round(self.duration.total_seconds()) if self.duration else None`, so a
missing duration and the zero duration (both falsy) leave the wire field
unset (zero), and any other duration is rounded to whole seconds. -/
def Dispatch.to_protobuf (d : Dispatch) : PBDispatch :=
  { metadata :=
      { dispatch_id := d.id
        create_time := d.create_time
        modification_time := d.update_time }
    data :=
      { type := d.type
        start_time := d.start_time
        duration :=
          match d.duration with
          | some dur => if dur ≠ 0 then pyRoundSeconds dur else 0
          | none => 0
        selector := d.selector
        is_active := d.active
        is_dry_run := d.dry_run
        payload := d.payload
        recurrence := d.recurrence } }

/-- `Dispatch.from_protobuf` of `types.py`: the duration is
`timedelta(seconds=pb_object.data.duration) if pb_object.data.duration else
None`, so a zero (or unset) wire duration reads back as a missing
duration. -/
def Dispatch.from_protobuf (pb : PBDispatch) : Dispatch :=
  { id := pb.metadata.dispatch_id
    type := pb.data.type
    create_time := pb.metadata.create_time
    update_time := pb.metadata.modification_time
    start_time := pb.data.start_time
    duration :=
      if pb.data.duration ≠ 0 then some (pb.data.duration * microPerSecond) else none
    selector := pb.data.selector
    active := pb.data.is_active
    dry_run := pb.data.is_dry_run
    payload := pb.data.payload
    recurrence := pb.data.recurrence }

/-- A dispatch whose fields are irrelevant defaults, used as the base of the
concrete instances below. -/
def baseDispatch : Dispatch :=
  { id := 1
    type := "TEST"
    start_time := 0
    duration := none
    selector := []
    active := true
    dry_run := false
    payload := []
    recurrence := {}
    create_time := 0
    update_time := 0 }

/-- C1: a dispatch without duration, active, queried with its own type, is
reported RUNNING at every instant at or after its start time and STOPPED at
every earlier instant. -/
theorem claim_C1 (d : Dispatch) (t : String) (now : Int)
    (hdur : d.duration = none) (hact : d.active = true) (hty : d.type = t) :
    (d.start_time ≤ now → d.running t now = .ok .RUNNING) ∧
    (now < d.start_time → d.running t now = .ok .STOPPED) := by
  constructor
  · intro h
    simp [Dispatch.running, hty, hact, hdur, not_lt.mpr h]
  · intro h
    simp [Dispatch.running, hty, hact, hdur, h]

/-- Witness for C1 at a concrete dispatch and two concrete instants. -/
theorem claim_C1_witness :
    baseDispatch.duration = none ∧ baseDispatch.active = true ∧
    baseDispatch.type = "TEST" ∧
    (baseDispatch.start_time ≤ 5 → baseDispatch.running "TEST" 5 = .ok .RUNNING) ∧
    (-5 < baseDispatch.start_time → baseDispatch.running "TEST" (-5) = .ok .STOPPED) :=
  ⟨rfl, rfl, rfl, (claim_C1 baseDispatch "TEST" 5 rfl rfl rfl).1,
    (claim_C1 baseDispatch "TEST" (-5) rfl rfl rfl).2⟩

/-- The inactive no-duration dispatch refuting C3 as stated. -/
def cexDispatchC3 : Dispatch := { baseDispatch with active := false }

/-- C3 counterexample: a dispatch whose duration is absent but which is
inactive; evaluating `until` returns none instead of signalling an error,
because the activity check precedes the missing-duration check. -/
theorem claim_C3_counterexample :
    cexDispatchC3.duration = none ∧ cexDispatchC3.until 0 = .ok none :=
  ⟨rfl, rfl⟩

/-- C3 amended: for every active dispatch whose duration is absent,
evaluating `until` at any reference instant signals an error rather than
silently returning none. -/
theorem claim_C3 (d : Dispatch) (now : Int)
    (hdur : d.duration = none) (hact : d.active = true) :
    d.until now = .error "_until: Dispatch has no duration" := by
  simp [Dispatch.until, hact, Dispatch.untilAt, hdur]

/-- Witness for the amended C3 at a concrete dispatch and instant. -/
theorem claim_C3_witness :
    baseDispatch.duration = none ∧ baseDispatch.active = true ∧
    baseDispatch.until 0 = .error "_until: Dispatch has no duration" :=
  ⟨rfl, rfl, claim_C3 baseDispatch 0 rfl rfl⟩

/-- C4: with no real recurrence frequency or with no duration, the next run
is the start time when `after` is at or before it, and none otherwise. -/
theorem claim_C4 (d : Dispatch) (after : Int)
    (h : d.recurrence.frequency = Frequency.UNSPECIFIED ∨ d.duration = none) :
    d.next_run_after after =
      (if after ≤ d.start_time then some d.start_time else none) := by
  unfold Dispatch.next_run_after
  rw [if_pos h]
  by_cases hc : d.start_time < after
  · rw [if_pos hc, if_neg (not_le.mpr hc)]
  · rw [if_neg hc, if_pos (not_lt.mp hc)]

/-- Witness for C4 at a concrete one-shot dispatch. -/
theorem claim_C4_witness :
    (baseDispatch.recurrence.frequency = Frequency.UNSPECIFIED ∨
      baseDispatch.duration = none) ∧
    baseDispatch.next_run_after (-3) =
      (if (-3 : Int) ≤ baseDispatch.start_time then some baseDispatch.start_time
       else none) :=
  ⟨Or.inl rfl, claim_C4 baseDispatch (-3) (Or.inl rfl)⟩

/-- The recurring dispatch with an UNSPECIFIED weekday used as C6 witness. -/
def witDispatchC6 : Dispatch :=
  { baseDispatch with
    duration := some 1200000000
    recurrence :=
      { frequency := .WEEKLY, interval := 1
        byweekdays := [Weekday.UNSPECIFIED, Weekday.MONDAY] } }

/-- C6: a dispatch with a real recurrence frequency and a duration whose
by-weekday filter contains the UNSPECIFIED sentinel yields none from
`next_run_after` at every instant; the function is total (it returns an
`Option` and has no failure path), so no exception is raised. -/
theorem claim_C6 (d : Dispatch) (after : Int)
    (hfreq : d.recurrence.frequency ≠ Frequency.UNSPECIFIED)
    (hdur : d.duration ≠ none)
    (hweek : Weekday.UNSPECIFIED ∈ d.recurrence.byweekdays) :
    d.next_run_after after = none := by
  unfold Dispatch.next_run_after
  rw [if_neg (by push_neg; exact ⟨hfreq, hdur⟩), if_pos hweek]

/-- Witness for C6 at a concrete weekly dispatch with an UNSPECIFIED
weekday. -/
theorem claim_C6_witness :
    witDispatchC6.recurrence.frequency ≠ Frequency.UNSPECIFIED ∧
    witDispatchC6.duration ≠ none ∧
    Weekday.UNSPECIFIED ∈ witDispatchC6.recurrence.byweekdays ∧
    witDispatchC6.next_run_after 0 = none :=
  ⟨by decide, by decide, by decide,
    claim_C6 witDispatchC6 0 (by decide) (by decide) (by decide)⟩

/-- C10: an inactive dispatch answers none from `until` at every instant
without signalling an error, whether or not a duration is present, because
the activity check precedes the missing-duration check. -/
theorem claim_C10 (d : Dispatch) (now : Int) (hact : d.active = false) :
    d.until now = .ok none := by
  simp [Dispatch.until, hact]

/-- A real recurrence frequency yields a positive stepping length. -/
theorem stepMicro_pos (r : RecurrenceRule) (h : r.frequency ≠ Frequency.UNSPECIFIED) :
    0 < r.stepMicro := by
  unfold RecurrenceRule.stepMicro
  have hunit : 0 < r.frequency.unitMicro := by
    cases hf : r.frequency with
    | UNSPECIFIED => exact absurd hf h
    | HOURLY => norm_num [Frequency.unitMicro, microPerSecond]
    | DAILY => norm_num [Frequency.unitMicro, microPerSecond]
    | WEEKLY => norm_num [Frequency.unitMicro, microPerSecond]
    | MONTHLY => norm_num [Frequency.unitMicro, microPerSecond]
  have hmax : (0 : Int) < ((max 1 r.interval : Nat) : Int) := by
    have h1 : 1 ≤ max 1 r.interval := le_max_left _ _
    omega
  exact mul_pos hunit hmax

/-- Candidate instants do not decrease with the index when the step is
positive. -/
theorem occCandidate_mono (r : RecurrenceRule) (start : Int) (hstep : 0 < r.stepMicro)
    {j k : Nat} (h : j ≤ k) : r.occCandidate start j ≤ r.occCandidate start k := by
  unfold RecurrenceRule.occCandidate
  have hmul : (j : Int) * r.stepMicro ≤ (k : Int) * r.stepMicro := by
    apply mul_le_mul_of_nonneg_right
    · exact_mod_cast h
    · omega
  omega

/-- Completeness of the bounded index scan: every valid candidate at or
before the reference instant appears in the filtered index list. -/
theorem mem_filtered_of_occ (r : RecurrenceRule) (start ref : Int)
    (hstep : 0 < r.stepMicro) {k : Nat}
    (hv : r.occValidIdx start k = true) (hle : r.occCandidate start k ≤ ref) :
    k ∈ (List.range (((ref - start) / r.stepMicro).toNat + 1)).filter
      (fun k => r.occValidIdx start k && decide (r.occCandidate start k ≤ ref)) := by
  rw [List.mem_filter, List.mem_range]
  refine ⟨?_, by simp [hv, hle]⟩
  have h1 : (k : Int) * r.stepMicro ≤ ref - start := by
    unfold RecurrenceRule.occCandidate at hle
    omega
  have h2 : (k : Int) ≤ (ref - start) / r.stepMicro :=
    (Int.le_ediv_iff_mul_le hstep).mpr h1
  omega

/-- Correctness of `last_at_or_before` against the occurrence predicate: a
returned instant is the greatest occurrence at or before the reference, and
none is returned exactly when no occurrence lies at or before it. -/
theorem last_at_or_before_spec (r : RecurrenceRule) (start ref : Int)
    (hstep : 0 < r.stepMicro) :
    (∀ v, r.last_at_or_before start ref = some v →
      r.IsOccurrence start v ∧ v ≤ ref ∧
      ∀ t, r.IsOccurrence start t → t ≤ ref → t ≤ v) ∧
    (r.last_at_or_before start ref = none →
      ∀ t, r.IsOccurrence start t → ¬(t ≤ ref)) := by
  constructor
  · intro v h
    unfold RecurrenceRule.last_at_or_before at h
    rw [Option.map_eq_some'] at h
    obtain ⟨kmax, hmax, hv⟩ := h
    rw [List.max?_eq_some_iff'] at hmax
    obtain ⟨hmem, hub⟩ := hmax
    rw [List.mem_filter] at hmem
    have hpv : r.occValidIdx start kmax = true ∧ r.occCandidate start kmax ≤ ref := by
      simpa using hmem.2
    refine ⟨⟨kmax, hv.symm, hpv.1⟩, hv ▸ hpv.2, ?_⟩
    rintro t ⟨k, rfl, hvk⟩ htle
    have hk : k ≤ kmax := hub k (mem_filtered_of_occ r start ref hstep hvk htle)
    calc r.occCandidate start k ≤ r.occCandidate start kmax :=
        occCandidate_mono r start hstep hk
      _ = v := hv
  · intro h
    rintro t ⟨k, rfl, hvk⟩ htle
    unfold RecurrenceRule.last_at_or_before at h
    rw [Option.map_eq_none', List.max?_eq_none_iff] at h
    have hmem := mem_filtered_of_occ r start ref hstep hvk htle
    rw [h] at hmem
    exact absurd hmem (List.not_mem_nil k)

/-- C5: for an active dispatch with a duration and a real recurrence
frequency, `until` returns the latest occurrence of the recurrence
(anchored at the start time) at or before `now`, plus the duration; it
returns none exactly when no occurrence lies at or before `now`. -/
theorem claim_C5 (d : Dispatch) (now dur : Int)
    (hact : d.active = true)
    (hdur : d.duration = some dur)
    (hfreq : d.recurrence.frequency ≠ Frequency.UNSPECIFIED) :
    (∀ u, d.until now = .ok (some u) →
      ∃ t, d.recurrence.IsOccurrence d.start_time t ∧ t ≤ now ∧
        (∀ s, d.recurrence.IsOccurrence d.start_time s → s ≤ now → s ≤ t) ∧
        u = t + dur) ∧
    (d.until now = .ok none →
      ∀ t, d.recurrence.IsOccurrence d.start_time t → ¬(t ≤ now)) ∧
    ((∀ t, d.recurrence.IsOccurrence d.start_time t → ¬(t ≤ now)) →
      d.until now = .ok none) ∧
    (∀ t, d.recurrence.IsOccurrence d.start_time t → t ≤ now →
      ∃ u, d.until now = .ok (some u)) := by
  have hstep := stepMicro_pos d.recurrence hfreq
  have hspec := last_at_or_before_spec d.recurrence d.start_time now hstep
  have huntil : d.until now =
      (match d.recurrence.last_at_or_before d.start_time now with
       | none => .ok none
       | some latest_past_start => .ok (some (latest_past_start + dur))) := by
    unfold Dispatch.until Dispatch.untilAt
    rw [if_neg (by simp [hact]), hdur]
    simp only []
    rw [if_neg hfreq]
  refine ⟨?_, ?_, ?_, ?_⟩
  · intro u h
    rw [huntil] at h
    cases hl : d.recurrence.last_at_or_before d.start_time now with
    | none =>
      rw [hl] at h
      simp only [] at h
      exact absurd (Except.ok.inj h) (by simp)
    | some latest =>
      rw [hl] at h
      simp only [] at h
      obtain ⟨hocc, hle, hgr⟩ := hspec.1 latest hl
      exact ⟨latest, hocc, hle, hgr,
        (Option.some.inj (Except.ok.inj h)).symm⟩
  · intro h
    cases hl : d.recurrence.last_at_or_before d.start_time now with
    | none => exact hspec.2 hl
    | some latest =>
      rw [huntil, hl] at h
      simp only [] at h
      exact absurd (Except.ok.inj h) (by simp)
  · intro hno
    rw [huntil]
    cases hl : d.recurrence.last_at_or_before d.start_time now with
    | none => rfl
    | some latest =>
      obtain ⟨hocc, hle, _⟩ := hspec.1 latest hl
      exact absurd hle (hno latest hocc)
  · intro t ht htle
    cases hl : d.recurrence.last_at_or_before d.start_time now with
    | none => exact absurd htle (hspec.2 hl t ht)
    | some latest =>
      refine ⟨latest + dur, ?_⟩
      rw [huntil, hl]

/-- The daily recurring dispatch used as C5 witness. -/
def witDispatchC5 : Dispatch :=
  { baseDispatch with
    duration := some 1200000000
    recurrence := { frequency := .DAILY, interval := 1 } }

/-- Witness for C5 at a concrete daily dispatch, about 1.16 days after its
start. -/
theorem claim_C5_witness :
    witDispatchC5.active = true ∧
    witDispatchC5.duration = some 1200000000 ∧
    witDispatchC5.recurrence.frequency ≠ Frequency.UNSPECIFIED ∧
    ((∀ u, witDispatchC5.until 100000000000 = .ok (some u) →
      ∃ t, witDispatchC5.recurrence.IsOccurrence witDispatchC5.start_time t ∧
        t ≤ 100000000000 ∧
        (∀ s, witDispatchC5.recurrence.IsOccurrence witDispatchC5.start_time s →
          s ≤ 100000000000 → s ≤ t) ∧
        u = t + 1200000000) ∧
    (witDispatchC5.until 100000000000 = .ok none →
      ∀ t, witDispatchC5.recurrence.IsOccurrence witDispatchC5.start_time t →
        ¬(t ≤ 100000000000)) ∧
    ((∀ t, witDispatchC5.recurrence.IsOccurrence witDispatchC5.start_time t →
        ¬(t ≤ 100000000000)) →
      witDispatchC5.until 100000000000 = .ok none) ∧
    (∀ t, witDispatchC5.recurrence.IsOccurrence witDispatchC5.start_time t →
      t ≤ 100000000000 →
      ∃ u, witDispatchC5.until 100000000000 = .ok (some u))) :=
  ⟨rfl, rfl, by decide,
    claim_C5 witDispatchC5 100000000000 1200000000 rfl rfl (by decide)⟩

/-- The no-duration dispatch whose reported state flips with the ambient
clock, used against C8. -/
def cexDispatchC8 : Dispatch := { baseDispatch with start_time := 10 }

/-- C8 counterexample: `running` in the source takes only the requested type
as input and reads the reference instant from the ambient wall clock; with
the Python-level inputs (dispatch value and requested type) held fixed, two
calls made while the ambient clock reads 5 and 15 microseconds return
different results, so `running` is not a function of the dispatch value and
an explicitly supplied reference instant. -/
theorem claim_C8_counterexample :
    cexDispatchC8.running "TEST" 5 = .ok .STOPPED ∧
    cexDispatchC8.running "TEST" 15 = .ok .RUNNING ∧
    cexDispatchC8.running "TEST" 5 ≠ cexDispatchC8.running "TEST" 15 := by
  refine ⟨rfl, rfl, fun h => ?_⟩
  rw [show cexDispatchC8.running "TEST" 5 = Except.ok RunningState.STOPPED from rfl,
    show cexDispatchC8.running "TEST" 15 = Except.ok RunningState.RUNNING from rfl] at h
  exact absurd (Except.ok.inj h) (by simp)

/-- C8 amended: `next_run_after` (and the internal `_until`) take the
reference instant as an explicit argument; `running`, `until` and `next_run`
instead read the ambient wall clock during the call, and each query is a
deterministic function of the dispatch value, its arguments and that clock
instant: `next_run` is exactly `next_run_after` at the clock instant, equal
clock instants give equal outputs, and the clock instant genuinely
influences the output. -/
theorem claim_C8 :
    (∀ (d : Dispatch) (clockNow : Int), d.next_run clockNow = d.next_run_after clockNow) ∧
    (∀ (d : Dispatch) (t : String) (now now2 : Int), now = now2 →
      d.running t now = d.running t now2 ∧ d.until now = d.until now2 ∧
      d.next_run_after now = d.next_run_after now2) ∧
    cexDispatchC8.running "TEST" 5 ≠ cexDispatchC8.running "TEST" 15 := by
  refine ⟨fun d c => rfl,
    fun d t now now2 h => by subst h; exact ⟨rfl, rfl, rfl⟩, fun h => ?_⟩
  rw [show cexDispatchC8.running "TEST" 5 = Except.ok RunningState.STOPPED from rfl,
    show cexDispatchC8.running "TEST" 15 = Except.ok RunningState.RUNNING from rfl] at h
  exact absurd (Except.ok.inj h) (by simp)

/-- Witness for the amended C8, instantiating its quantified parts at a
concrete dispatch and clock instant. -/
theorem claim_C8_witness :
    baseDispatch.next_run 3 = baseDispatch.next_run_after 3 ∧
    (3 : Int) = 3 ∧ baseDispatch.running "TEST" 3 = baseDispatch.running "TEST" 3 :=
  ⟨claim_C8.1 baseDispatch 3, rfl, (claim_C8.2.1 baseDispatch "TEST" 3 3 rfl).1⟩

/-- Every instant returned by the bounded forward search lies at or after
the requested instant. -/
theorem firstSearch_ge (r : RecurrenceRule) (start after : Int) :
    ∀ (fuel k passes : Nat) (t : Int),
      firstSearch r start after k fuel passes = some t → after ≤ t := by
  intro fuel
  induction fuel with
  | zero => intro k passes t h; exact Option.noConfusion h
  | succ n ih =>
    intro k passes t h
    unfold firstSearch at h
    split at h
    · exact Option.noConfusion h
    · split at h
      · exact Option.noConfusion h
      · split at h
        · split at h
          next hle => rw [Option.some.inj h] at hle; exact hle
          next => exact ih (k + 1) (passes + 1) t h
        · exact ih (k + 1) passes t h

/-- If the bounded forward search finds nothing at or after an instant, it
finds nothing at or after any later instant either. -/
theorem firstSearch_none_mono (r : RecurrenceRule) (start a1 a2 : Int)
    (h12 : a1 ≤ a2) :
    ∀ (fuel k passes : Nat),
      firstSearch r start a1 k fuel passes = none →
      firstSearch r start a2 k fuel passes = none := by
  intro fuel
  induction fuel with
  | zero => intro k passes _; rfl
  | succ n ih =>
    intro k passes h
    unfold firstSearch at h ⊢
    by_cases hc :
        (match r.countBound with | some n => decide (n ≤ passes) | none => false) = true
    · rw [if_pos hc]
    · rw [if_neg hc] at h ⊢
      by_cases hu : r.untilOk (r.occCandidate start k) = false
      · rw [if_pos hu]
      · rw [if_neg hu] at h ⊢
        by_cases hm : r.matchesFilters (r.occCandidate start k) = true
        · rw [if_pos hm] at h ⊢
          by_cases h1 : a1 ≤ r.occCandidate start k
          · rw [if_pos h1] at h; exact Option.noConfusion h
          · rw [if_neg h1] at h
            rw [if_neg (fun hle => h1 (le_trans h12 hle))]
            exact ih (k + 1) (passes + 1) h
        · rw [if_neg hm] at h ⊢
          exact ih (k + 1) passes h

/-- The bounded forward search is monotone in the requested instant: when
both searches succeed, a later request yields a later (or equal) result. -/
theorem firstSearch_le_mono (r : RecurrenceRule) (start a1 a2 : Int)
    (h12 : a1 ≤ a2) :
    ∀ (fuel k passes : Nat) (t1 t2 : Int),
      firstSearch r start a1 k fuel passes = some t1 →
      firstSearch r start a2 k fuel passes = some t2 → t1 ≤ t2 := by
  intro fuel
  induction fuel with
  | zero => intro k passes t1 t2 h1 _; exact Option.noConfusion h1
  | succ n ih =>
    intro k passes t1 t2 h1 h2
    unfold firstSearch at h1 h2
    by_cases hc :
        (match r.countBound with | some n => decide (n ≤ passes) | none => false) = true
    · rw [if_pos hc] at h1; exact Option.noConfusion h1
    · rw [if_neg hc] at h1 h2
      by_cases hu : r.untilOk (r.occCandidate start k) = false
      · rw [if_pos hu] at h1; exact Option.noConfusion h1
      · rw [if_neg hu] at h1 h2
        by_cases hm : r.matchesFilters (r.occCandidate start k) = true
        · rw [if_pos hm] at h1 h2
          by_cases ha2 : a2 ≤ r.occCandidate start k
          · rw [if_pos (le_trans h12 ha2)] at h1
            rw [if_pos ha2] at h2
            rw [← Option.some.inj h1, ← Option.some.inj h2]
          · rw [if_neg ha2] at h2
            by_cases ha1 : a1 ≤ r.occCandidate start k
            · rw [if_pos ha1] at h1
              have hge : a2 ≤ t2 := firstSearch_ge r start a2 n (k + 1) (passes + 1) t2 h2
              have ht1 : r.occCandidate start k = t1 := Option.some.inj h1
              have hlt : r.occCandidate start k < a2 := not_le.mp ha2
              omega
            · rw [if_neg ha1] at h1
              exact ih (k + 1) (passes + 1) t1 t2 h1 h2
        · rw [if_neg hm] at h1 h2
          exact ih (k + 1) passes t1 t2 h1 h2

/-- C7: `next_run_after` is monotone in the reference instant: moving the
reference later never moves the result earlier, and once the result is none
it stays none. -/
theorem claim_C7 (d : Dispatch) (a1 a2 : Int) (h12 : a1 ≤ a2) :
    (d.next_run_after a1 = none → d.next_run_after a2 = none) ∧
    (∀ v1 v2 : Int, d.next_run_after a1 = some v1 →
      d.next_run_after a2 = some v2 → v1 ≤ v2) := by
  constructor
  · intro h1
    unfold Dispatch.next_run_after at h1 ⊢
    by_cases hb : d.recurrence.frequency = Frequency.UNSPECIFIED ∨ d.duration = none
    · rw [if_pos hb] at h1 ⊢
      by_cases hs : d.start_time < a2
      · rw [if_pos hs]
      · rw [if_neg (by omega : ¬d.start_time < a1)] at h1
        exact Option.noConfusion h1
    · rw [if_neg hb] at h1 ⊢
      by_cases hw : Weekday.UNSPECIFIED ∈ d.recurrence.byweekdays
      · rw [if_pos hw]
      · rw [if_neg hw] at h1 ⊢
        unfold RecurrenceRule.first_at_or_after at h1 ⊢
        exact firstSearch_none_mono _ _ _ _ h12 _ _ _ h1
  · intro v1 v2 h1 h2
    unfold Dispatch.next_run_after at h1 h2
    by_cases hb : d.recurrence.frequency = Frequency.UNSPECIFIED ∨ d.duration = none
    · rw [if_pos hb] at h1 h2
      by_cases hs1 : d.start_time < a1
      · rw [if_pos hs1] at h1; exact Option.noConfusion h1
      · rw [if_neg hs1] at h1
        by_cases hs2 : d.start_time < a2
        · rw [if_pos hs2] at h2; exact Option.noConfusion h2
        · rw [if_neg hs2] at h2
          have e1 := Option.some.inj h1
          have e2 := Option.some.inj h2
          omega
    · rw [if_neg hb] at h1 h2
      by_cases hw : Weekday.UNSPECIFIED ∈ d.recurrence.byweekdays
      · rw [if_pos hw] at h1; exact Option.noConfusion h1
      · rw [if_neg hw] at h1 h2
        unfold RecurrenceRule.first_at_or_after at h1 h2
        exact firstSearch_le_mono _ _ _ _ h12 _ _ _ v1 v2 h1 h2

/-- Witness for C7 at a concrete one-shot dispatch and two ordered
instants. -/
theorem claim_C7_witness :
    (-2 : Int) ≤ -1 ∧
    ((baseDispatch.next_run_after (-2) = none → baseDispatch.next_run_after (-1) = none) ∧
     (∀ v1 v2 : Int, baseDispatch.next_run_after (-2) = some v1 →
       baseDispatch.next_run_after (-1) = some v2 → v1 ≤ v2)) :=
  ⟨by norm_num, claim_C7 baseDispatch (-2) (-1) (by norm_num)⟩

/-- The not-yet-started dispatch refuting C2 as stated: start in the future,
duration present, active, no recurrence. -/
def cexDispatchC2 : Dispatch :=
  { baseDispatch with start_time := 600000000, duration := some 1200000000 }

/-- C2 counterexample: a dispatch with a duration, queried with its matching
type at an instant before its start time, is STOPPED, yet `until` still
returns a value (start time plus duration) rather than none — refuting that
`until` returns a value only while RUNNING. -/
theorem claim_C2_counterexample :
    cexDispatchC2.duration = some 1200000000 ∧
    cexDispatchC2.type = "TEST" ∧
    cexDispatchC2.running "TEST" 0 = .ok .STOPPED ∧
    cexDispatchC2.until 0 = .ok (some 1800000000) :=
  ⟨rfl, rfl, rfl, rfl⟩

/-- C2 amended: for a dispatch with a duration present and matching type,
whenever `running` reports RUNNING at `now`, `until` returns a value at
`now` and that value lies strictly after `now` (`until` can however also
return a value at instants where the dispatch is not RUNNING, such as before
its start). -/
theorem claim_C2 (d : Dispatch) (t : String) (now dur : Int)
    (hdur : d.duration = some dur)
    (hrun : d.running t now = .ok .RUNNING) :
    ∃ u, d.until now = .ok (some u) ∧ now < u := by
  unfold Dispatch.running at hrun
  split at hrun
  · exact absurd (Except.ok.inj hrun) (by simp)
  next hty =>
    split at hrun
    · exact absurd (Except.ok.inj hrun) (by simp)
    next hact =>
      split at hrun
      · exact absurd (Except.ok.inj hrun) (by simp)
      next hge =>
        rw [hdur] at hrun
        simp only [] at hrun
        cases h2 : d.untilAt now with
        | error e => rw [h2] at hrun; exact absurd hrun (by simp)
        | ok o =>
          cases o with
          | none => rw [h2] at hrun; exact absurd (Except.ok.inj hrun) (by simp)
          | some u =>
            rw [h2] at hrun
            simp only [] at hrun
            refine ⟨u, ?_, ?_⟩
            · unfold Dispatch.until
              rw [if_neg hact]
              exact h2
            · by_contra hnu
              rw [if_neg hnu] at hrun
              exact absurd (Except.ok.inj hrun) (by simp)

/-- The currently-running dispatch used as C2 witness. -/
def witDispatchC2 : Dispatch :=
  { baseDispatch with start_time := -600000000, duration := some 1200000000 }

/-- Witness for the amended C2 at a concrete running dispatch. -/
theorem claim_C2_witness :
    witDispatchC2.duration = some 1200000000 ∧
    witDispatchC2.running "TEST" 0 = .ok .RUNNING ∧
    ∃ u, witDispatchC2.until 0 = .ok (some u) ∧ (0 : Int) < u :=
  ⟨rfl, rfl, claim_C2 witDispatchC2 "TEST" 0 1200000000 rfl rfl⟩

/-- C9 part for whole seconds: rounding an exact whole-second microsecond
duration returns that number of seconds. -/
theorem pyRoundSeconds_whole (s : Int) :
    pyRoundSeconds (s * microPerSecond) = s := by
  unfold pyRoundSeconds
  rw [Int.mul_ediv_cancel s (by norm_num [microPerSecond]),
    Int.mul_emod_left]
  norm_num

/-- The duration field after a full protobuf round trip: a missing duration
stays missing, and a present one is replaced by its whole-second rounding,
degenerating to missing when the rounding is zero. -/
theorem durationRoundtrip (d : Dispatch) :
    (Dispatch.from_protobuf d.to_protobuf).duration =
      (match d.duration with
       | none => none
       | some m =>
         if pyRoundSeconds m = 0 then none
         else some (pyRoundSeconds m * microPerSecond)) := by
  cases hd : d.duration with
  | none =>
    simp [Dispatch.to_protobuf, Dispatch.from_protobuf, hd]
  | some m =>
    by_cases hm : m = 0
    · have h0 : pyRoundSeconds 0 = 0 := by norm_num [pyRoundSeconds]
      subst hm
      simp [Dispatch.to_protobuf, Dispatch.from_protobuf, hd, h0]
    · by_cases hr : pyRoundSeconds m = 0
      · simp [Dispatch.to_protobuf, Dispatch.from_protobuf, hd, hm, hr]
      · simp [Dispatch.to_protobuf, Dispatch.from_protobuf, hd, hm, hr]

/-- C9: round-tripping a dispatch through `to_protobuf` then
`from_protobuf` keeps a missing duration missing, keeps every whole-second
duration of at least one second unchanged, and in general replaces the
duration by its whole-second rounding — with a duration that rounds to zero
seconds coming back as absent. -/
theorem claim_C9 (d : Dispatch) :
    (d.duration = none → (Dispatch.from_protobuf d.to_protobuf).duration = none) ∧
    (∀ s : Int, 1 ≤ s → d.duration = some (s * microPerSecond) →
      (Dispatch.from_protobuf d.to_protobuf).duration = some (s * microPerSecond)) ∧
    (∀ m : Int, d.duration = some m →
      (Dispatch.from_protobuf d.to_protobuf).duration =
        (if pyRoundSeconds m = 0 then none
         else some (pyRoundSeconds m * microPerSecond))) := by
  refine ⟨?_, ?_, ?_⟩
  · intro h
    rw [durationRoundtrip, h]
  · intro s hs h
    rw [durationRoundtrip, h]
    simp only [pyRoundSeconds_whole]
    rw [if_neg (by omega)]
  · intro m h
    rw [durationRoundtrip, h]

/-- The sub-second-duration dispatch used as C9 witness: 1.5 seconds rounds
half to even, to 2 seconds. -/
def witDispatchC9 : Dispatch := { baseDispatch with duration := some 1500000 }

/-- Witness for C9 at concrete durations: a missing duration stays missing,
a whole 20-second duration survives, and 1.5 seconds rounds to 2 seconds. -/
theorem claim_C9_witness :
    (baseDispatch.duration = none →
      (Dispatch.from_protobuf baseDispatch.to_protobuf).duration = none) ∧
    ((1 : Int) ≤ 1200 → witDispatchC2.duration = some (1200 * microPerSecond) →
      (Dispatch.from_protobuf witDispatchC2.to_protobuf).duration =
        some (1200 * microPerSecond)) ∧
    (witDispatchC9.duration = some 1500000 →
      (Dispatch.from_protobuf witDispatchC9.to_protobuf).duration =
        (if pyRoundSeconds 1500000 = 0 then none
         else some (pyRoundSeconds 1500000 * microPerSecond))) :=
  ⟨(claim_C9 baseDispatch).1,
    (claim_C9 witDispatchC2).2.1 1200,
    (claim_C9 witDispatchC9).2.2 1500000⟩

/-- The inactive no-duration dispatch used as C10 witness. -/
def witDispatchC10 : Dispatch := { baseDispatch with active := false }

/-- Witness for C10 at a concrete inactive dispatch without a duration. -/
theorem claim_C10_witness :
    witDispatchC10.active = false ∧ witDispatchC10.duration = none ∧
    witDispatchC10.until 7 = .ok none :=
  ⟨rfl, rfl, claim_C10 witDispatchC10 7 rfl⟩
